import Mathlib

/-!
Shallow embedding of the vecmath library's transform core
(src/Vector3.js, src/Quaternion.js, src/Matrix4x4.js) over exact reals.

JavaScript numbers are modelled as real numbers; `Math.hypot`, `Math.sqrt`,
`Math.acos`, `Math.sin` become `Real.sqrt`, `Real.arccos`, `Real.sin`.
Division follows Lean's real-division convention (`x / 0 = 0`) where the
JavaScript source would produce `NaN`/`Infinity`; every place where that
matters is noted at the theorem concerned.

Matrices are modelled as 16 named real fields `e0 .. e15` in the same
column-major element order as the source's `Float32Array`, so `te[k]` in
the JavaScript corresponds to field `e{k}` here.  Methods that mutate an
output argument are modelled as functions returning the final value of
that argument; `decompose`, which writes three output arguments and
returns its receiver, returns a four-field record whose `receiver` field
is the final state of `this`.
-/

noncomputable section

namespace Vecmath

/-- Vector3 (src/Vector3.js): ordered triple of numbers. -/
@[ext] structure Vector3 where
  x : ℝ
  y : ℝ
  z : ℝ


/-- Quaternion (src/Quaternion.js): components stored in order x, y, z, w. -/
@[ext] structure Quaternion where
  x : ℝ
  y : ℝ
  z : ℝ
  w : ℝ


/-- Matrix4x4 (src/Matrix4x4.js): the 16 elements of the column-major
`Float32Array`, field `e{k}` standing for `elements[k]`. -/
@[ext] structure Matrix4x4 where
  e0 : ℝ
  e1 : ℝ
  e2 : ℝ
  e3 : ℝ
  e4 : ℝ
  e5 : ℝ
  e6 : ℝ
  e7 : ℝ
  e8 : ℝ
  e9 : ℝ
  e10 : ℝ
  e11 : ℝ
  e12 : ℝ
  e13 : ℝ
  e14 : ℝ
  e15 : ℝ


namespace Vector3

/-- The `Vector3.dot` (src/Vector3.js): e[0]*f[0] + e[1]*f[1] + e[2]*f[2]. -/
def dot (a b : Vector3) : ℝ := a.x * b.x + a.y * b.y + a.z * b.z

/-- The `Vector3.cross` / `crossProduct` (src/Vector3.js): the value written
into the receiver, `(ay*bz - az*by, az*bx - ax*bz, ax*by - ay*bx)`. -/
def cross (a b : Vector3) : Vector3 :=
  ⟨a.y * b.z - a.z * b.y, a.z * b.x - a.x * b.z, a.x * b.y - a.y * b.x⟩

/-- The `Vector3.negate` (src/Vector3.js). -/
def negate (a : Vector3) : Vector3 := ⟨-a.x, -a.y, -a.z⟩

/-- The `Vector3.lengthSq` (src/Vector3.js). -/
def lengthSq (a : Vector3) : ℝ := a.x * a.x + a.y * a.y + a.z * a.z

/-- The `Vector3.length` (src/Vector3.js): `Math.hypot(e[0], e[1], e[2])`. -/
def length (a : Vector3) : ℝ := Real.sqrt (a.x * a.x + a.y * a.y + a.z * a.z)

end Vector3

/-- The `Math.hypot(a, b, c)` as used by `Matrix4x4.decompose`. -/
def hypot3 (a b c : ℝ) : ℝ := Real.sqrt (a * a + b * b + c * c)

namespace Quaternion

/-- The `Quaternion.identity` (src/Quaternion.js): `[0, 0, 0, 1]`. -/
def identity : Quaternion := ⟨0, 0, 0, 1⟩

/-- The `Quaternion.dot` (src/Quaternion.js). -/
def dot (a b : Quaternion) : ℝ := a.x * b.x + a.y * b.y + a.z * b.z + a.w * b.w

/-- The `Quaternion.negate` (src/Quaternion.js): negates all four components. -/
def negate (q : Quaternion) : Quaternion := ⟨-q.x, -q.y, -q.z, -q.w⟩

/-- The `Quaternion.lengthSq` (src/Quaternion.js). -/
def lengthSq (q : Quaternion) : ℝ :=
  q.x * q.x + q.y * q.y + q.z * q.z + q.w * q.w

/-- The `Quaternion.length` (src/Quaternion.js): `Math.sqrt(this.lengthSq())`. -/
def length (q : Quaternion) : ℝ := Real.sqrt q.lengthSq

/-- The `Quaternion.normalize` (src/Quaternion.js): if the length is positive,
scale every component by its inverse; the zero quaternion is unchanged. -/
def normalize (q : Quaternion) : Quaternion :=
  if 0 < q.length then
    ⟨q.x * (1 / q.length), q.y * (1 / q.length),
     q.z * (1 / q.length), q.w * (1 / q.length)⟩
  else q

/-- The `Quaternion.equals` (src/Quaternion.js): componentwise comparison
within `epsilon` (the code returns `true` iff every `|difference| < epsilon`). -/
def equalsEps (a b : Quaternion) (epsilon : ℝ) : Prop :=
  |a.x - b.x| < epsilon ∧ |a.y - b.y| < epsilon ∧
  |a.z - b.z| < epsilon ∧ |a.w - b.w| < epsilon

end Quaternion

namespace Matrix4x4

/-- The `Matrix4x4.set` (src/Matrix4x4.js): arguments in row-major order,
stored column-major (`e[0] = n11; e[4] = n12; ...`). -/
def set (n11 n12 n13 n14 n21 n22 n23 n24 n31 n32 n33 n34 n41 n42 n43 n44 : ℝ) :
    Matrix4x4 :=
  ⟨n11, n21, n31, n41, n12, n22, n32, n42, n13, n23, n33, n43, n14, n24, n34, n44⟩

/-- The `Matrix4x4.setFromRotationQuaternion` (src/Matrix4x4.js): the standard
bilinear expansion of the rotation matrix of a quaternion. -/
def setFromRotationQuaternion (q : Quaternion) : Matrix4x4 :=
  let x := q.x
  let y := q.y
  let z := q.z
  let w := q.w
  let x2 := x + x
  let y2 := y + y
  let z2 := z + z
  let xx := x * x2
  let xy := x * y2
  let xz := x * z2
  let yy := y * y2
  let yz := y * z2
  let zz := z * z2
  let wx := w * x2
  let wy := w * y2
  let wz := w * z2
  set (1 - (yy + zz)) (xy - wz) (xz + wy) 0
      (xy + wz) (1 - (xx + zz)) (yz - wx) 0
      (xz - wy) (yz + wx) (1 - (xx + yy)) 0
      0 0 0 1

/-- The `Matrix4x4.compose` (src/Matrix4x4.js, lines 214-258): writes the
rotation block of `quaternion` with column `i` scaled by component `i`
of `scale`, the translation column from `position`, bottom row 0 0 0 1. -/
def compose (position : Vector3) (quaternion : Quaternion) (scale : Vector3) :
    Matrix4x4 :=
  let x := quaternion.x
  let y := quaternion.y
  let z := quaternion.z
  let w := quaternion.w
  let x2 := x + x
  let y2 := y + y
  let z2 := z + z
  let xx := x * x2
  let xy := x * y2
  let xz := x * z2
  let yy := y * y2
  let yz := y * z2
  let zz := z * z2
  let wx := w * x2
  let wy := w * y2
  let wz := w * z2
  let sx := scale.x
  let sy := scale.y
  let sz := scale.z
  { e0 := (1 - (yy + zz)) * sx
    e1 := (xy + wz) * sx
    e2 := (xz - wy) * sx
    e3 := 0
    e4 := (xy - wz) * sy
    e5 := (1 - (xx + zz)) * sy
    e6 := (yz + wx) * sy
    e7 := 0
    e8 := (xz + wy) * sz
    e9 := (yz - wx) * sz
    e10 := (1 - (xx + yy)) * sz
    e11 := 0
    e12 := position.x
    e13 := position.y
    e14 := position.z
    e15 := 1 }

/-- The `Matrix4x4.determinant` (src/Matrix4x4.js, lines 398-448): cofactor
expansion exactly as written in the source. -/
def determinant (m : Matrix4x4) : ℝ :=
  let n11 := m.e0
  let n12 := m.e4
  let n13 := m.e8
  let n14 := m.e12
  let n21 := m.e1
  let n22 := m.e5
  let n23 := m.e9
  let n24 := m.e13
  let n31 := m.e2
  let n32 := m.e6
  let n33 := m.e10
  let n34 := m.e14
  let n41 := m.e3
  let n42 := m.e7
  let n43 := m.e11
  let n44 := m.e15
  n41 * (n14 * n23 * n32 - n13 * n24 * n32 - n14 * n22 * n33 +
         n12 * n24 * n33 + n13 * n22 * n34 - n12 * n23 * n34) +
  n42 * (n11 * n23 * n34 - n11 * n24 * n33 + n14 * n21 * n33 -
         n13 * n21 * n34 + n13 * n24 * n31 - n14 * n23 * n31) +
  n43 * (n11 * n24 * n32 - n11 * n22 * n34 - n14 * n21 * n32 +
         n12 * n21 * n34 + n14 * n22 * n31 - n12 * n24 * n31) +
  n44 * (-(n13 * n22 * n31) - n11 * n23 * n32 + n11 * n22 * n33 +
         n13 * n21 * n32 - n12 * n21 * n33 + n12 * n23 * n31)

/-- The `Matrix4x4.equals` (src/Matrix4x4.js): true iff every element pair
differs by at most `epsilon`. -/
def equalsEps (a b : Matrix4x4) (epsilon : ℝ) : Prop :=
  |a.e0 - b.e0| ≤ epsilon ∧ |a.e1 - b.e1| ≤ epsilon ∧
  |a.e2 - b.e2| ≤ epsilon ∧ |a.e3 - b.e3| ≤ epsilon ∧
  |a.e4 - b.e4| ≤ epsilon ∧ |a.e5 - b.e5| ≤ epsilon ∧
  |a.e6 - b.e6| ≤ epsilon ∧ |a.e7 - b.e7| ≤ epsilon ∧
  |a.e8 - b.e8| ≤ epsilon ∧ |a.e9 - b.e9| ≤ epsilon ∧
  |a.e10 - b.e10| ≤ epsilon ∧ |a.e11 - b.e11| ≤ epsilon ∧
  |a.e12 - b.e12| ≤ epsilon ∧ |a.e13 - b.e13| ≤ epsilon ∧
  |a.e14 - b.e14| ≤ epsilon ∧ |a.e15 - b.e15| ≤ epsilon

end Matrix4x4

end Vecmath

namespace Vecmath

/-- The branch part of `Quaternion.setFromRotationMatrix` (src/Quaternion.js,
lines 390-429): Shepperd's four-way case split on the trace and the largest
diagonal entry.  All four components are assigned in every branch, so the
result does not depend on the prior state of the receiver. -/
def Quaternion.shepperd (m : Matrix4x4) : Quaternion :=
  let m11 := m.e0
  let m12 := m.e4
  let m13 := m.e8
  let m21 := m.e1
  let m22 := m.e5
  let m23 := m.e9
  let m31 := m.e2
  let m32 := m.e6
  let m33 := m.e10
  let trace := m11 + m22 + m33
  if trace > 0 then
    let s := 0.5 / Real.sqrt (trace + 1.0)
    ⟨(m32 - m23) * s, (m13 - m31) * s, (m21 - m12) * s, 0.25 / s⟩
  else if m11 > m22 ∧ m11 > m33 then
    let s := 2.0 * Real.sqrt (1.0 + m11 - m22 - m33)
    ⟨0.25 * s, (m12 + m21) / s, (m13 + m31) / s, (m32 - m23) / s⟩
  else if m22 > m33 then
    let s := 2.0 * Real.sqrt (1.0 + m22 - m11 - m33)
    ⟨(m12 + m21) / s, 0.25 * s, (m23 + m32) / s, (m13 - m31) / s⟩
  else
    let s := 2.0 * Real.sqrt (1.0 + m33 - m11 - m22)
    ⟨(m13 + m31) / s, (m23 + m32) / s, 0.25 * s, (m21 - m12) / s⟩

/-- The `Quaternion.setFromRotationMatrix` (src/Quaternion.js, lines 390-432):
the Shepperd case split followed by `return this.normalize()`. -/
def setFromRotationMatrix (m : Matrix4x4) : Quaternion :=
  (Quaternion.shepperd m).normalize

/-- The mirror-handling branch of `Matrix4x4.decompose` (src/Matrix4x4.js,
lines 293-311): given the normalized basis columns and the unsigned scale
magnitudes, if the basis determinant is negative, test flipping X, then Y,
else flip Z; returns the (possibly flipped) basis and tentative scales. -/
def mirrorFlip (rx ry rz : Vector3) (sx sy sz : ℝ) :
    Vector3 × Vector3 × Vector3 × ℝ × ℝ × ℝ :=
  let detSign := (rx.cross ry).dot rz
  if detSign < 0 then
    if ((rx.negate).cross ry).dot rz > 0 then
      (rx.negate, ry, rz, -sx, sy, sz)
    else if (rx.cross (ry.negate)).dot rz > 0 then
      (rx, ry.negate, rz, sx, -sy, sz)
    else
      (rx, ry, rz.negate, sx, sy, -sz)
  else
    (rx, ry, rz, sx, sy, sz)

/-- Result record of `Matrix4x4.decompose`: the final values of the three
output arguments plus the returned receiver. -/
@[ext] structure DecomposeResult where
  position : Vector3
  quaternion : Quaternion
  scale : Vector3
  receiver : Matrix4x4

/-- The `Matrix4x4.decompose` (src/Matrix4x4.js, lines 260-364), step by step:
translation copy; column magnitudes by `Math.hypot`; inverse magnitudes
guarded by `EPS = 1e-12` (zero when the magnitude is not above `EPS`);
column normalization; mirror handling (`mirrorFlip`); rotation-matrix
assembly; `setFromRotationMatrix`; finally the scales are recomputed by
dividing the matrix diagonal entries by the quaternion's diagonal rotation
terms (lines 356-358), overwriting the tentative signed scales.  The
receiver's elements are never written, and `this` is returned. -/
def decompose (m : Matrix4x4) : DecomposeResult :=
  let position : Vector3 := ⟨m.e12, m.e13, m.e14⟩
  let colX : Vector3 := ⟨m.e0, m.e1, m.e2⟩
  let colY : Vector3 := ⟨m.e4, m.e5, m.e6⟩
  let colZ : Vector3 := ⟨m.e8, m.e9, m.e10⟩
  let sx := hypot3 m.e0 m.e1 m.e2
  let sy := hypot3 m.e4 m.e5 m.e6
  let sz := hypot3 m.e8 m.e9 m.e10
  let EPS : ℝ := 1e-12
  let invSx := if sx > EPS then 1 / sx else 0
  let invSy := if sy > EPS then 1 / sy else 0
  let invSz := if sz > EPS then 1 / sz else 0
  let rx : Vector3 := ⟨colX.x * invSx, colX.y * invSx, colX.z * invSx⟩
  let ry : Vector3 := ⟨colY.x * invSy, colY.y * invSy, colY.z * invSy⟩
  let rz : Vector3 := ⟨colZ.x * invSz, colZ.y * invSz, colZ.z * invSz⟩
  let flipped := mirrorFlip rx ry rz sx sy sz
  let rx' := flipped.1
  let ry' := flipped.2.1
  let rz' := flipped.2.2.1
  let rot : Matrix4x4 :=
    ⟨rx'.x, rx'.y, rx'.z, 0, ry'.x, ry'.y, ry'.z, 0,
     rz'.x, rz'.y, rz'.z, 0, 0, 0, 0, 1⟩
  let quaternion := setFromRotationMatrix rot
  let sx' := m.e0 / (1 - 2 * quaternion.y ^ 2 - 2 * quaternion.z ^ 2)
  let sy' := m.e5 / (1 - 2 * quaternion.x ^ 2 - 2 * quaternion.z ^ 2)
  let sz' := m.e10 / (1 - 2 * quaternion.x ^ 2 - 2 * quaternion.y ^ 2)
  { position := position
    quaternion := quaternion
    scale := ⟨sx', sy', sz'⟩
    receiver := m }

end Vecmath

namespace Vecmath

/-- C6: `compose` builds exactly the matrix whose linear-block column `i`
is column `i` of the rotation matrix of `q` (as built by
`setFromRotationQuaternion`) scaled by component `i` of `s`, whose
translation column is `p`, and whose bottom row is (0, 0, 0, 1) — for
every `p`, `q`, `s`, with no normalization or validation of inputs. -/
theorem compose_is_scaled_rotation_columns (p : Vector3) (q : Quaternion)
    (s : Vector3) :
    Matrix4x4.compose p q s =
      { e0 := (Matrix4x4.setFromRotationQuaternion q).e0 * s.x
        e1 := (Matrix4x4.setFromRotationQuaternion q).e1 * s.x
        e2 := (Matrix4x4.setFromRotationQuaternion q).e2 * s.x
        e3 := 0
        e4 := (Matrix4x4.setFromRotationQuaternion q).e4 * s.y
        e5 := (Matrix4x4.setFromRotationQuaternion q).e5 * s.y
        e6 := (Matrix4x4.setFromRotationQuaternion q).e6 * s.y
        e7 := 0
        e8 := (Matrix4x4.setFromRotationQuaternion q).e8 * s.z
        e9 := (Matrix4x4.setFromRotationQuaternion q).e9 * s.z
        e10 := (Matrix4x4.setFromRotationQuaternion q).e10 * s.z
        e11 := 0
        e12 := p.x
        e13 := p.y
        e14 := p.z
        e15 := 1 } := by
  apply Matrix4x4.ext <;>
    simp [Matrix4x4.compose, Matrix4x4.setFromRotationQuaternion, Matrix4x4.set]

end Vecmath

namespace Vecmath

/-- Evaluation helper: `Real.sqrt a = b` when `b ^ 2 = a` and `0 ≤ b`. -/
lemma sqrt_eval {a b : ℝ} (hb : 0 ≤ b) (h : b ^ 2 = a) : Real.sqrt a = b := by
  rw [← h, Real.sqrt_sq hb]

/-- The `lengthSq` on an explicit quaternion literal. -/
lemma Quaternion.lengthSq_mk (a b c d : ℝ) :
    Quaternion.lengthSq ⟨a, b, c, d⟩ = a * a + b * b + c * c + d * d := rfl

/-- A quaternion whose fourth component is positive has positive `lengthSq`. -/
lemma Quaternion.lengthSq_pos_of_w {a b c d : ℝ} (hd : 0 < d) :
    0 < Quaternion.lengthSq ⟨a, b, c, d⟩ := by
  rw [Quaternion.lengthSq_mk]
  nlinarith [mul_self_nonneg a, mul_self_nonneg b, mul_self_nonneg c]

/-- A quaternion whose first component is positive has positive `lengthSq`. -/
lemma Quaternion.lengthSq_pos_of_x {a b c d : ℝ} (ha : 0 < a) :
    0 < Quaternion.lengthSq ⟨a, b, c, d⟩ := by
  rw [Quaternion.lengthSq_mk]
  nlinarith [mul_self_nonneg b, mul_self_nonneg c, mul_self_nonneg d]

/-- A quaternion whose second component is positive has positive `lengthSq`. -/
lemma Quaternion.lengthSq_pos_of_y {a b c d : ℝ} (hb : 0 < b) :
    0 < Quaternion.lengthSq ⟨a, b, c, d⟩ := by
  rw [Quaternion.lengthSq_mk]
  nlinarith [mul_self_nonneg a, mul_self_nonneg c, mul_self_nonneg d]

/-- A quaternion whose third component is positive has positive `lengthSq`. -/
lemma Quaternion.lengthSq_pos_of_z {a b c d : ℝ} (hc : 0 < c) :
    0 < Quaternion.lengthSq ⟨a, b, c, d⟩ := by
  rw [Quaternion.lengthSq_mk]
  nlinarith [mul_self_nonneg a, mul_self_nonneg b, mul_self_nonneg d]

/-- The `normalize` of a quaternion of positive squared length has squared
length exactly 1. -/
lemma Quaternion.normalize_lengthSq {q : Quaternion} (h : 0 < q.lengthSq) :
    q.normalize.lengthSq = 1 := by
  have hlen : 0 < q.length := Real.sqrt_pos.mpr h
  have hsq : q.length * q.length = q.lengthSq :=
    Real.mul_self_sqrt (le_of_lt h)
  have hne : q.length ≠ 0 := ne_of_gt hlen
  unfold Quaternion.normalize
  rw [if_pos hlen, Quaternion.lengthSq_mk]
  unfold Quaternion.lengthSq at hsq
  field_simp
  linear_combination -hsq

/-- A unit quaternion is unchanged by `normalize`. -/
lemma Quaternion.normalize_of_unit {q : Quaternion} (h : q.lengthSq = 1) :
    q.normalize = q := by
  have hlen : q.length = 1 := by
    unfold Quaternion.length
    rw [h, Real.sqrt_one]
  unfold Quaternion.normalize
  rw [hlen, if_pos one_pos]
  ext <;> simp

/-- The quaternion produced by the Shepperd case split always has positive
squared length: in each branch the component assigned `0.25 * s` (or
`0.25 / s`) is strictly positive. -/
lemma Quaternion.shepperd_lengthSq_pos (m : Matrix4x4) :
    0 < (Quaternion.shepperd m).lengthSq := by
  unfold Quaternion.shepperd
  by_cases h1 : m.e0 + m.e5 + m.e10 > 0
  · rw [if_pos h1]
    refine Quaternion.lengthSq_pos_of_w ?_
    have hs : 0 < Real.sqrt (m.e0 + m.e5 + m.e10 + 1.0) :=
      Real.sqrt_pos.mpr (by linarith)
    positivity
  · rw [if_neg h1]
    push_neg at h1
    by_cases h2 : m.e0 > m.e5 ∧ m.e0 > m.e10
    · rw [if_pos h2]
      refine Quaternion.lengthSq_pos_of_x ?_
      have hexpr : 0 < 1.0 + m.e0 - m.e5 - m.e10 := by
        rcases le_or_lt 0 m.e0 with h | h
        · linarith
        · linarith [h2.1, h2.2]
      have hs : 0 < Real.sqrt (1.0 + m.e0 - m.e5 - m.e10) :=
        Real.sqrt_pos.mpr hexpr
      linarith
    · rw [if_neg h2]
      push_neg at h2
      by_cases h3 : m.e5 > m.e10
      · rw [if_pos h3]
        refine Quaternion.lengthSq_pos_of_y ?_
        have hexpr : 0 < 1.0 + m.e5 - m.e0 - m.e10 := by
          rcases le_or_lt 0 m.e5 with h | h
          · linarith
          · rcases le_or_lt m.e0 m.e5 with h' | h'
            · linarith
            · have := h2 h'
              linarith
        have hs : 0 < Real.sqrt (1.0 + m.e5 - m.e0 - m.e10) :=
          Real.sqrt_pos.mpr hexpr
        linarith
      · rw [if_neg h3]
        push_neg at h3
        refine Quaternion.lengthSq_pos_of_z ?_
        have hexpr : 0 < 1.0 + m.e10 - m.e0 - m.e5 := by
          rcases le_or_lt 0 m.e10 with h | h
          · linarith
          · rcases le_or_lt m.e0 m.e5 with h' | h'
            · linarith
            · have := h2 h'
              linarith
        have hs : 0 < Real.sqrt (1.0 + m.e10 - m.e0 - m.e5) :=
          Real.sqrt_pos.mpr hexpr
        linarith

/-- C5: on every input matrix — whichever of the four Shepperd branches
applies — `setFromRotationMatrix` normalizes its result before returning,
so the returned quaternion is unit-length (squared length and length both
exactly 1), even when the rotation block is not orthonormal. -/
theorem setFromRotationMatrix_unit_length (m : Matrix4x4) :
    (setFromRotationMatrix m).lengthSq = 1 ∧ (setFromRotationMatrix m).length = 1 := by
  have h : (setFromRotationMatrix m).lengthSq = 1 :=
    Quaternion.normalize_lengthSq (Quaternion.shepperd_lengthSq_pos m)
  refine ⟨h, ?_⟩
  unfold Quaternion.length
  rw [h, Real.sqrt_one]

/-- C10: `decompose` never writes the receiver's 16 elements; it only fills
the three output arguments and returns the receiver unchanged. -/
theorem decompose_receiver_unchanged (m : Matrix4x4) :
    (decompose m).receiver = m := rfl

end Vecmath

namespace Vecmath

/-- The `length` on an explicit quaternion literal. -/
lemma Quaternion.length_mk (a b c d : ℝ) :
    Quaternion.length ⟨a, b, c, d⟩ = Real.sqrt (a * a + b * b + c * c + d * d) := rfl

/-- Evaluation of `normalize` on a literal whose squared length is `l * l`
with `0 < l`. -/
lemma Quaternion.normalize_eval {a b c d l : ℝ} (hl : 0 < l)
    (h : a * a + b * b + c * c + d * d = l * l) :
    Quaternion.normalize ⟨a, b, c, d⟩ = ⟨a / l, b / l, c / l, d / l⟩ := by
  have hlen : Quaternion.length ⟨a, b, c, d⟩ = l := by
    rw [Quaternion.length_mk, h]
    exact sqrt_eval hl.le (by ring)
  unfold Quaternion.normalize
  rw [hlen, if_pos hl]
  ext <;> simp [div_eq_mul_inv]

/-- C4 (amended): in the `trace > 0` branch of Shepperd's case split the
returned quaternion's `w` is strictly positive; this is the only hemisphere
guarantee `setFromRotationMatrix` provides (no `w ≥ 0` canonicalization
exists on the other branches). -/
theorem setFromRotationMatrix_w_pos_of_trace_pos (m : Matrix4x4)
    (h : 0 < m.e0 + m.e5 + m.e10) :
    0 < (setFromRotationMatrix m).w := by
  have hpre : 0 < (Quaternion.shepperd m).lengthSq :=
    Quaternion.shepperd_lengthSq_pos m
  have hlen : 0 < (Quaternion.shepperd m).length := Real.sqrt_pos.mpr hpre
  have hw : 0 < (Quaternion.shepperd m).w := by
    unfold Quaternion.shepperd
    rw [if_pos (show m.e0 + m.e5 + m.e10 > 0 from h)]
    show (0 : ℝ) < 0.25 / (0.5 / Real.sqrt (m.e0 + m.e5 + m.e10 + 1.0))
    have hs : 0 < Real.sqrt (m.e0 + m.e5 + m.e10 + 1.0) :=
      Real.sqrt_pos.mpr (by linarith)
    positivity
  unfold setFromRotationMatrix Quaternion.normalize
  rw [if_pos hlen]
  show 0 < (Quaternion.shepperd m).w * (1 / (Quaternion.shepperd m).length)
  positivity

/-- Witness for C4's amended theorem at the identity matrix. -/
theorem setFromRotationMatrix_w_pos_witness :
    (0 : ℝ) < (⟨1, 0, 0, 0, 0, 1, 0, 0, 0, 0, 1, 0, 0, 0, 0, 1⟩ : Matrix4x4).e0 +
        (⟨1, 0, 0, 0, 0, 1, 0, 0, 0, 0, 1, 0, 0, 0, 0, 1⟩ : Matrix4x4).e5 +
        (⟨1, 0, 0, 0, 0, 1, 0, 0, 0, 0, 1, 0, 0, 0, 0, 1⟩ : Matrix4x4).e10 ∧
    0 < (setFromRotationMatrix ⟨1, 0, 0, 0, 0, 1, 0, 0, 0, 0, 1, 0, 0, 0, 0, 1⟩).w :=
  ⟨by norm_num, setFromRotationMatrix_w_pos_of_trace_pos _ (by norm_num)⟩

end Vecmath

namespace Vecmath

/-- The input quaternion of the C4 counterexample: a unit quaternion with
negative `w` (rotation by more than 2π/3 about the X axis). -/
def q247 : Quaternion := ⟨24 / 25, 0, 0, -7 / 25⟩

/-- The counterexample matrix: `compose` of the origin, `q247`, unit scale —
a matrix of the structural form `[R·diag(s) | t]`. -/
def M247 : Matrix4x4 := Matrix4x4.compose ⟨0, 0, 0⟩ q247 ⟨1, 1, 1⟩

/-- C4 counterexample: the matrix `M247` is of the structural form (it is
`compose` of a unit quaternion and positive scale), yet the quaternion
written by `decompose` has `w = -7/25 < 0`: the result is not canonicalized
to the `w ≥ 0` hemisphere. -/
theorem decompose_w_negative_counterexample :
    Quaternion.lengthSq q247 = 1 ∧
    (decompose M247).quaternion.w = -7 / 25 ∧
    (decompose M247).quaternion.w < 0 := by
  have hunit : Quaternion.lengthSq q247 = 1 := by
    norm_num [Quaternion.lengthSq, q247]
  have hM : M247 =
      ⟨1, 0, 0, 0, 0, -527/625, -336/625, 0, 0, 336/625, -527/625, 0, 0, 0, 0, 1⟩ := by
    unfold M247 q247
    apply Matrix4x4.ext <;> norm_num [Matrix4x4.compose]
  have hyp1 : hypot3 (1 : ℝ) 0 0 = 1 := by
    unfold hypot3
    rw [show ((1 : ℝ) * 1 + 0 * 0 + 0 * 0) = 1 by norm_num]
    exact Real.sqrt_one
  have hyp2 : hypot3 (0 : ℝ) (-(527/625)) (-(336/625)) = 1 := by
    unfold hypot3
    rw [show ((0 : ℝ) * 0 + -(527/625) * (-(527/625)) + -(336/625) * (-(336/625))) = 1 by
      norm_num]
    exact Real.sqrt_one
  have hyp3 : hypot3 (0 : ℝ) (336/625) (-(527/625)) = 1 := by
    unfold hypot3
    rw [show ((0 : ℝ) * 0 + 336/625 * (336/625) + -(527/625) * (-(527/625))) = 1 by
      norm_num]
    exact Real.sqrt_one
  have hsqrt : Real.sqrt (2304/625 : ℝ) = 48/25 :=
    sqrt_eval (by norm_num) (by norm_num)
  have hshep : Quaternion.shepperd
      ⟨1, 0, 0, 0, 0, -(527/625), -(336/625), 0, 0, 336/625, -(527/625), 0, 0, 0, 0, 1⟩ =
      ⟨24/25, 0, 0, -(7/25)⟩ := by
    apply Quaternion.ext <;> norm_num [Quaternion.shepperd, hsqrt]
  have hq : (decompose M247).quaternion = ⟨24/25, 0, 0, -7/25⟩ := by
    rw [hM]
    show setFromRotationMatrix _ = _
    norm_num [mirrorFlip, Vector3.cross, Vector3.dot, Vector3.negate, hyp1, hyp2, hyp3]
    unfold setFromRotationMatrix
    rw [hshep]
    rw [Quaternion.normalize_eval one_pos (by norm_num)]
    apply Quaternion.ext <;> norm_num
  refine ⟨hunit, ?_, ?_⟩
  · rw [hq]
  · rw [hq]
    norm_num

end Vecmath

namespace Vecmath

/-- C3 (amended): whenever the mirror-handling branch of `decompose` sees a
negative basis determinant, its first test — negate the X column and check
the determinant — always succeeds, because negating one column simply
negates the determinant.  So the flipped axis is always X, regardless of
which column's original magnitude was largest. -/
theorem mirrorFlip_always_flips_x (rx ry rz : Vector3) (sx sy sz : ℝ)
    (h : (rx.cross ry).dot rz < 0) :
    mirrorFlip rx ry rz sx sy sz = (rx.negate, ry, rz, -sx, sy, sz) := by
  have hx : ((rx.negate).cross ry).dot rz > 0 := by
    simp only [Vector3.cross, Vector3.dot, Vector3.negate] at h ⊢
    nlinarith [h]
  unfold mirrorFlip
  rw [if_pos h, if_pos hx]

/-- Witness for the mirror-flip theorem at a concrete left-handed basis. -/
theorem mirrorFlip_always_flips_x_witness :
    (((⟨0, 1, 0⟩ : Vector3).cross ⟨1, 0, 0⟩).dot ⟨0, 0, 1⟩ < 0) ∧
    mirrorFlip ⟨0, 1, 0⟩ ⟨1, 0, 0⟩ ⟨0, 0, 1⟩ 1 2 3 =
      (Vector3.negate ⟨0, 1, 0⟩, ⟨1, 0, 0⟩, ⟨0, 0, 1⟩, -1, 2, 3) := by
  have h : ((⟨0, 1, 0⟩ : Vector3).cross ⟨1, 0, 0⟩).dot ⟨0, 0, 1⟩ < 0 := by
    norm_num [Vector3.cross, Vector3.dot]
  exact ⟨h, mirrorFlip_always_flips_x _ _ _ _ _ _ h⟩

/-- The `decompose`'s scale output expressed through its quaternion output
(the diagonal-division step, src/Matrix4x4.js lines 356-358). -/
lemma decompose_scale_eq (m : Matrix4x4) :
    (decompose m).scale =
      ⟨m.e0 / (1 - 2 * (decompose m).quaternion.y ^ 2 -
          2 * (decompose m).quaternion.z ^ 2),
       m.e5 / (1 - 2 * (decompose m).quaternion.x ^ 2 -
          2 * (decompose m).quaternion.z ^ 2),
       m.e10 / (1 - 2 * (decompose m).quaternion.x ^ 2 -
          2 * (decompose m).quaternion.y ^ 2)⟩ := rfl

/-- The C3 counterexample matrix: diagonal scale (1, -2, 1) — a mirrored
transform whose largest column magnitude is the second (Y) column. -/
def M121 : Matrix4x4 := ⟨1, 0, 0, 0, 0, -2, 0, 0, 0, 0, 1, 0, 0, 0, 0, 1⟩

/-- C3 counterexample: `M121` has column magnitudes (1, 2, 1) — largest on
Y — and negative basis determinant, but `decompose` emits scale (-1, 2, 1):
the negated component is X, not the largest-magnitude axis Y. -/
theorem decompose_mirror_flips_x_not_largest :
    hypot3 M121.e0 M121.e1 M121.e2 = 1 ∧
    hypot3 M121.e4 M121.e5 M121.e6 = 2 ∧
    hypot3 M121.e8 M121.e9 M121.e10 = 1 ∧
    (decompose M121).scale = ⟨-1, 2, 1⟩ := by
  have hyp1 : hypot3 (1 : ℝ) 0 0 = 1 := by
    unfold hypot3
    rw [show ((1 : ℝ) * 1 + 0 * 0 + 0 * 0) = 1 by norm_num]
    exact Real.sqrt_one
  have hyp2 : hypot3 (0 : ℝ) (-2) 0 = 2 := by
    unfold hypot3
    rw [show ((0 : ℝ) * 0 + -2 * -2 + 0 * 0) = 4 by norm_num]
    exact sqrt_eval (by norm_num) (by norm_num)
  have hyp3 : hypot3 (0 : ℝ) 0 1 = 1 := by
    unfold hypot3
    rw [show ((0 : ℝ) * 0 + 0 * 0 + 1 * 1) = 1 by norm_num]
    exact Real.sqrt_one
  have hsqrt4 : Real.sqrt (4 : ℝ) = 2 := sqrt_eval (by norm_num) (by norm_num)
  have hshep : Quaternion.shepperd
      ⟨-1, 0, 0, 0, 0, -1, 0, 0, 0, 0, 1, 0, 0, 0, 0, 1⟩ = ⟨0, 0, 1, 0⟩ := by
    apply Quaternion.ext <;> norm_num [Quaternion.shepperd, hsqrt4]
  have hq : (decompose M121).quaternion = ⟨0, 0, 1, 0⟩ := by
    show setFromRotationMatrix _ = _
    norm_num [M121, mirrorFlip, Vector3.cross, Vector3.dot, Vector3.negate,
      hyp1, hyp2, hyp3]
    unfold setFromRotationMatrix
    rw [hshep]
    rw [Quaternion.normalize_eval one_pos (by norm_num)]
    apply Quaternion.ext <;> norm_num
  refine ⟨?_, ?_, ?_, ?_⟩
  · show hypot3 (1 : ℝ) 0 0 = 1
    exact hyp1
  · show hypot3 (0 : ℝ) (-2) 0 = 2
    exact hyp2
  · show hypot3 (0 : ℝ) 0 1 = 1
    exact hyp3
  · rw [decompose_scale_eq, hq]
    apply Vector3.ext <;> norm_num [M121]

end Vecmath

namespace Vecmath

/-- The `decompose`'s position output is the translation column. -/
lemma decompose_position_eq (m : Matrix4x4) :
    (decompose m).position = ⟨m.e12, m.e13, m.e14⟩ := rfl

/-- Evaluation of `decompose` on a matrix whose linear block is entirely
zero (translation column arbitrary): every column magnitude is 0, so every
guarded inverse is 0, the determinant test sees 0 (no flip), the assembled
rotation matrix is the zero block, Shepperd's final branch produces
(0, 0, 0.5, 0), and normalization yields the quaternion (0, 0, 1, 0). -/
lemma decompose_zero_linear_block (a b c : ℝ) :
    (decompose ⟨0, 0, 0, 0, 0, 0, 0, 0, 0, 0, 0, 0, a, b, c, 1⟩).position = ⟨a, b, c⟩ ∧
    (decompose ⟨0, 0, 0, 0, 0, 0, 0, 0, 0, 0, 0, 0, a, b, c, 1⟩).quaternion = ⟨0, 0, 1, 0⟩ ∧
    (decompose ⟨0, 0, 0, 0, 0, 0, 0, 0, 0, 0, 0, 0, a, b, c, 1⟩).scale = ⟨0, 0, 0⟩ := by
  have hyp0 : hypot3 (0 : ℝ) 0 0 = 0 := by
    unfold hypot3
    rw [show ((0 : ℝ) * 0 + 0 * 0 + 0 * 0) = 0 by norm_num]
    exact Real.sqrt_zero
  have hshep0 : Quaternion.shepperd
      ⟨0, 0, 0, 0, 0, 0, 0, 0, 0, 0, 0, 0, 0, 0, 0, 1⟩ = ⟨0, 0, 0.5, 0⟩ := by
    apply Quaternion.ext <;> norm_num [Quaternion.shepperd, Real.sqrt_one]
  have hq : (decompose
      (⟨0, 0, 0, 0, 0, 0, 0, 0, 0, 0, 0, 0, a, b, c, 1⟩ : Matrix4x4)).quaternion =
      ⟨0, 0, 1, 0⟩ := by
    show setFromRotationMatrix _ = _
    norm_num [mirrorFlip, Vector3.cross, Vector3.dot, Vector3.negate, hyp0]
    unfold setFromRotationMatrix
    rw [hshep0]
    rw [Quaternion.normalize_eval (show (0 : ℝ) < 0.5 by norm_num) (by norm_num)]
    apply Quaternion.ext <;> norm_num
  refine ⟨rfl, hq, ?_⟩
  rw [decompose_scale_eq, hq]
  apply Vector3.ext <;> norm_num

/-- C2 (amended): the code has no early return for degenerate scale; for
`M = compose(p, q, (0,0,0))` it still reports the translation column as
position and a zero scale (of length 0), but the output quaternion is
(0, 0, 1, 0) — a half-turn about Z extracted from the all-zero normalized
basis — not the identity rotation. -/
theorem decompose_compose_zero_scale (p : Vector3) (q : Quaternion) :
    (decompose (Matrix4x4.compose p q ⟨0, 0, 0⟩)).position = p ∧
    (decompose (Matrix4x4.compose p q ⟨0, 0, 0⟩)).quaternion = ⟨0, 0, 1, 0⟩ ∧
    (decompose (Matrix4x4.compose p q ⟨0, 0, 0⟩)).scale = ⟨0, 0, 0⟩ ∧
    Vector3.length ⟨0, 0, 0⟩ = 0 := by
  have hM : Matrix4x4.compose p q ⟨0, 0, 0⟩ =
      ⟨0, 0, 0, 0, 0, 0, 0, 0, 0, 0, 0, 0, p.x, p.y, p.z, 1⟩ := by
    apply Matrix4x4.ext <;> simp [Matrix4x4.compose]
  rw [hM]
  obtain ⟨h1, h2, h3⟩ := decompose_zero_linear_block p.x p.y p.z
  refine ⟨?_, h2, h3, ?_⟩
  · rw [h1]
  · unfold Vector3.length
    norm_num

/-- C2 counterexample: for `compose(0, identity, (0,0,0))` the quaternion
reported by `decompose` is (0, 0, 1, 0), which is not within 1e-6 of the
identity quaternion (0, 0, 0, 1) — there is no early return reporting an
identity rotation. -/
theorem decompose_zero_scale_quaternion_not_identity :
    (decompose (Matrix4x4.compose ⟨0, 0, 0⟩ Quaternion.identity ⟨0, 0, 0⟩)).quaternion =
      ⟨0, 0, 1, 0⟩ ∧
    ¬ Quaternion.equalsEps
      (decompose (Matrix4x4.compose ⟨0, 0, 0⟩ Quaternion.identity ⟨0, 0, 0⟩)).quaternion
      Quaternion.identity (1 / 1000000) := by
  have hM : Matrix4x4.compose ⟨0, 0, 0⟩ Quaternion.identity ⟨0, 0, 0⟩ =
      ⟨0, 0, 0, 0, 0, 0, 0, 0, 0, 0, 0, 0, 0, 0, 0, 1⟩ := by
    apply Matrix4x4.ext <;> simp [Matrix4x4.compose, Quaternion.identity]
  rw [hM]
  obtain ⟨-, h2, -⟩ := decompose_zero_linear_block 0 0 0
  refine ⟨h2, ?_⟩
  rw [h2]
  intro h
  have := h.2.2.1
  norm_num [Quaternion.identity] at this

end Vecmath

namespace Vecmath

/-- The C1 failing input's rotation: the unit quaternion (1/2, 1/2, 1/2, 1/2),
a 120° turn about the diagonal axis (1,1,1)/√3.  Every component is exactly
representable in binary floating point, and so is every intermediate value
of `compose` and `decompose` on it, so this input exercises the JavaScript
code exactly, with no rounding anywhere on the path. -/
def qHalf : Quaternion := ⟨1 / 2, 1 / 2, 1 / 2, 1 / 2⟩

/-- The C1 failing matrix: `compose` of the origin, `qHalf`, unit scale —
the axis-permutation rotation with columns (0,1,0), (0,0,1), (1,0,0). -/
def MHalf : Matrix4x4 := Matrix4x4.compose ⟨0, 0, 0⟩ qHalf ⟨1, 1, 1⟩

/-- C1 (code bug, evaluated at the failing input): for the 120° rotation
about (1,1,1)/√3 with unit scale — all values exact in floating point —
`decompose` recovers the quaternion (1/2, 1/2, 1/2, 1/2) exactly, but then
every scale-recovery division of src/Matrix4x4.js lines 356-358 is exactly
`0 / 0` (the denominator `1 - 2*qy² - 2*qz²` is exactly 0, as the third
conjunct states): `NaN` in JavaScript, 0 under Lean's division convention.
Either way the decomposed scale is not (1,1,1), and recomposing the
decomposed triple yields a matrix whose element 1 is 0 (NaN in JavaScript)
where `M` has exactly 1 — not equal within the 1e-4 round-trip tolerance. -/
theorem decompose_roundtrip_fails_at_diagonal_turn :
    Quaternion.lengthSq qHalf = 1 ∧
    (decompose MHalf).quaternion = ⟨1 / 2, 1 / 2, 1 / 2, 1 / 2⟩ ∧
    1 - 2 * (decompose MHalf).quaternion.y ^ 2 -
      2 * (decompose MHalf).quaternion.z ^ 2 = 0 ∧
    (decompose MHalf).scale = ⟨0, 0, 0⟩ ∧
    ¬ Matrix4x4.equalsEps
        (Matrix4x4.compose (decompose MHalf).position (decompose MHalf).quaternion
          (decompose MHalf).scale)
        MHalf (1 / 10000) := by
  have hunit : Quaternion.lengthSq qHalf = 1 := by
    norm_num [Quaternion.lengthSq, qHalf]
  have hM : MHalf = ⟨0, 1, 0, 0, 0, 0, 1, 0, 1, 0, 0, 0, 0, 0, 0, 1⟩ := by
    unfold MHalf qHalf
    apply Matrix4x4.ext <;> norm_num [Matrix4x4.compose]
  have hyp010 : hypot3 (0 : ℝ) 1 0 = 1 := by
    unfold hypot3
    rw [show ((0 : ℝ) * 0 + 1 * 1 + 0 * 0) = 1 by norm_num]
    exact Real.sqrt_one
  have hyp001 : hypot3 (0 : ℝ) 0 1 = 1 := by
    unfold hypot3
    rw [show ((0 : ℝ) * 0 + 0 * 0 + 1 * 1) = 1 by norm_num]
    exact Real.sqrt_one
  have hyp100 : hypot3 (1 : ℝ) 0 0 = 1 := by
    unfold hypot3
    rw [show ((1 : ℝ) * 1 + 0 * 0 + 0 * 0) = 1 by norm_num]
    exact Real.sqrt_one
  have hshep : Quaternion.shepperd
      ⟨0, 1, 0, 0, 0, 0, 1, 0, 1, 0, 0, 0, 0, 0, 0, 1⟩ =
      ⟨1 / 2, 1 / 2, 1 / 2, 1 / 2⟩ := by
    apply Quaternion.ext <;> norm_num [Quaternion.shepperd, Real.sqrt_one]
  have hq : (decompose MHalf).quaternion = ⟨1 / 2, 1 / 2, 1 / 2, 1 / 2⟩ := by
    rw [hM]
    show setFromRotationMatrix _ = _
    norm_num [mirrorFlip, Vector3.cross, Vector3.dot, Vector3.negate,
      hyp010, hyp001, hyp100]
    unfold setFromRotationMatrix
    rw [hshep]
    rw [Quaternion.normalize_eval one_pos (by norm_num)]
    apply Quaternion.ext <;> norm_num
  have hden : 1 - 2 * (decompose MHalf).quaternion.y ^ 2 -
      2 * (decompose MHalf).quaternion.z ^ 2 = 0 := by
    rw [hq]
    norm_num
  have hM0 : MHalf.e0 = 0 := by rw [hM]
  have hM5 : MHalf.e5 = 0 := by rw [hM]
  have hM10 : MHalf.e10 = 0 := by rw [hM]
  have hM1 : MHalf.e1 = 1 := by rw [hM]
  have hscale : (decompose MHalf).scale = ⟨0, 0, 0⟩ := by
    rw [decompose_scale_eq]
    apply Vector3.ext <;> simp [hM0, hM5, hM10]
  have hsx : (decompose MHalf).scale.x = 0 := by rw [hscale]
  refine ⟨hunit, hq, hden, hscale, ?_⟩
  intro h
  have he1 := h.2.1
  have hre1 : (Matrix4x4.compose (decompose MHalf).position (decompose MHalf).quaternion
      (decompose MHalf).scale).e1 = 0 := by
    simp only [Matrix4x4.compose]
    rw [hsx, mul_zero]
  rw [hre1, hM1] at he1
  norm_num at he1

end Vecmath

namespace Vecmath

/-- C7: for a unit quaternion the determinant of `compose(p, q, s)` equals
`s.x * s.y * s.z` exactly (a pure rotation contributes determinant +1), so
in particular its sign equals the sign of the scale product. -/
theorem determinant_compose_sign_law (p : Vector3) (q : Quaternion) (s : Vector3)
    (h : Quaternion.lengthSq q = 1) :
    Matrix4x4.determinant (Matrix4x4.compose p q s) = s.x * s.y * s.z ∧
    Real.sign (Matrix4x4.determinant (Matrix4x4.compose p q s)) =
      Real.sign (s.x * s.y * s.z) := by
  have hdet : Matrix4x4.determinant (Matrix4x4.compose p q s) = s.x * s.y * s.z := by
    simp only [Matrix4x4.determinant, Matrix4x4.compose]
    unfold Quaternion.lengthSq at h
    linear_combination (s.x * s.y * s.z * 4 * (q.x ^ 2 + q.y ^ 2 + q.z ^ 2)) * h
  exact ⟨hdet, by rw [hdet]⟩

/-- Witness for the determinant sign law at the identity rotation and
scale (1, 2, 3). -/
theorem determinant_compose_sign_law_witness :
    Quaternion.lengthSq ⟨0, 0, 0, 1⟩ = 1 ∧
    (Matrix4x4.determinant (Matrix4x4.compose ⟨0, 0, 0⟩ ⟨0, 0, 0, 1⟩ ⟨1, 2, 3⟩) =
        (⟨1, 2, 3⟩ : Vector3).x * (⟨1, 2, 3⟩ : Vector3).y * (⟨1, 2, 3⟩ : Vector3).z ∧
      Real.sign (Matrix4x4.determinant (Matrix4x4.compose ⟨0, 0, 0⟩ ⟨0, 0, 0, 1⟩ ⟨1, 2, 3⟩)) =
        Real.sign ((⟨1, 2, 3⟩ : Vector3).x * (⟨1, 2, 3⟩ : Vector3).y * (⟨1, 2, 3⟩ : Vector3).z)) := by
  have h : Quaternion.lengthSq ⟨0, 0, 0, 1⟩ = 1 := by
    norm_num [Quaternion.lengthSq]
  exact ⟨h, determinant_compose_sign_law ⟨0, 0, 0⟩ ⟨0, 0, 0, 1⟩ ⟨1, 2, 3⟩ h⟩

end Vecmath

namespace Vecmath

/-- The `Quaternion.slerp` (src/Quaternion.js, lines 290-333): shortest-arc
spherical interpolation.  The dot product of the operands decides whether
the target's components are negated (short arc); `cosHalfTheta >= 1`
returns the receiver; a near-zero `sinHalfTheta` falls back to linear
interpolation followed by `normalize`; otherwise the standard
`sin((1-t)θ)/sinθ`, `sin(tθ)/sinθ` weighted sum is used. -/
def Quaternion.slerp (qa qb : Quaternion) (t : ℝ) : Quaternion :=
  let cosHalfTheta0 := Quaternion.dot qa qb
  let b := if cosHalfTheta0 < 0 then qb.negate else qb
  let cosHalfTheta := if cosHalfTheta0 < 0 then -cosHalfTheta0 else cosHalfTheta0
  if cosHalfTheta ≥ 1.0 then qa
  else
    let halfTheta := Real.arccos cosHalfTheta
    let sinHalfTheta := Real.sqrt (1.0 - cosHalfTheta * cosHalfTheta)
    if |sinHalfTheta| < 0.001 then
      Quaternion.normalize
        ⟨qa.x * (1 - t) + b.x * t, qa.y * (1 - t) + b.y * t,
         qa.z * (1 - t) + b.z * t, qa.w * (1 - t) + b.w * t⟩
    else
      let ratioA := Real.sin ((1 - t) * halfTheta) / sinHalfTheta
      let ratioB := Real.sin (t * halfTheta) / sinHalfTheta
      ⟨qa.x * ratioA + b.x * ratioB, qa.y * ratioA + b.y * ratioB,
       qa.z * ratioA + b.z * ratioB, qa.w * ratioA + b.w * ratioB⟩

/-- The `Quaternion.toAxisAngle` (src/Quaternion.js, lines 353-359): normalize
first when `w > 1`; `angle = 2*acos(w)`; when `sqrt(1 - w²) < 0.001` return
the fixed axis (1, 0, 0) with that angle, else divide the vector part by
`sqrt(1 - w²)`. -/
def Quaternion.toAxisAngle (q : Quaternion) : Vector3 × ℝ :=
  let q' := if q.w > 1 then q.normalize else q
  let angle := 2 * Real.arccos q'.w
  let s := Real.sqrt (1 - q'.w * q'.w)
  if s < 0.001 then (⟨1, 0, 0⟩, angle)
  else (⟨q'.x / s, q'.y / s, q'.z / s⟩, angle)

/-- C9 (amended): for a unit quaternion in the degenerate case
`sqrt(1 - w²) < 0.001`, `toAxisAngle` returns the fixed axis (1, 0, 0)
together with the angle `2*acos(w)` — which is 0 at `w = 1` but `2π`
(not 0) at `w = -1`. -/
theorem toAxisAngle_degenerate (q : Quaternion)
    (h1 : Quaternion.lengthSq q = 1)
    (h2 : Real.sqrt (1 - q.w * q.w) < 0.001) :
    Quaternion.toAxisAngle q = (⟨1, 0, 0⟩, 2 * Real.arccos q.w) := by
  have hw : ¬ q.w > 1 := by
    intro hgt
    unfold Quaternion.lengthSq at h1
    nlinarith [mul_self_nonneg q.x, mul_self_nonneg q.y, mul_self_nonneg q.z]
  unfold Quaternion.toAxisAngle
  rw [if_neg hw, if_pos h2]

/-- Witness for the degenerate `toAxisAngle` theorem at the identity
quaternion. -/
theorem toAxisAngle_degenerate_witness :
    Quaternion.lengthSq ⟨0, 0, 0, 1⟩ = 1 ∧
    Real.sqrt (1 - (⟨0, 0, 0, 1⟩ : Quaternion).w * (⟨0, 0, 0, 1⟩ : Quaternion).w) < 0.001 ∧
    Quaternion.toAxisAngle ⟨0, 0, 0, 1⟩ =
      (⟨1, 0, 0⟩, 2 * Real.arccos (⟨0, 0, 0, 1⟩ : Quaternion).w) := by
  have h1 : Quaternion.lengthSq ⟨0, 0, 0, 1⟩ = 1 := by norm_num [Quaternion.lengthSq]
  have h2 : Real.sqrt (1 - (⟨0, 0, 0, 1⟩ : Quaternion).w * (⟨0, 0, 0, 1⟩ : Quaternion).w)
      < 0.001 := by
    rw [show (1 - (⟨0, 0, 0, 1⟩ : Quaternion).w * (⟨0, 0, 0, 1⟩ : Quaternion).w) = 0 by
      norm_num]
    rw [Real.sqrt_zero]
    norm_num
  exact ⟨h1, h2, toAxisAngle_degenerate _ h1 h2⟩

/-- C9 counterexample: at the unit quaternion (0, 0, 0, -1) — `w` near -1 —
`toAxisAngle` returns angle `2*acos(-1) = 2π`, not angle 0. -/
theorem toAxisAngle_neg_identity_angle_not_zero :
    Quaternion.toAxisAngle ⟨0, 0, 0, -1⟩ = (⟨1, 0, 0⟩, 2 * Real.pi) ∧
    2 * Real.pi ≠ 0 := by
  constructor
  · norm_num [Quaternion.toAxisAngle, Real.sqrt_zero, Real.arccos_neg_one]
  · have := Real.pi_pos
    intro h
    linarith

end Vecmath

namespace Vecmath

/-- Negating a quaternion preserves its squared length. -/
lemma Quaternion.lengthSq_negate (q : Quaternion) :
    (q.negate).lengthSq = q.lengthSq := by
  simp only [Quaternion.negate, Quaternion.lengthSq]
  ring

/-- Dot product with a negated right operand. -/
lemma Quaternion.dot_negate_right (a b : Quaternion) :
    Quaternion.dot a b.negate = -Quaternion.dot a b := by
  simp only [Quaternion.negate, Quaternion.dot]
  ring

/-- Two unit quaternions with dot product at least 1 are equal. -/
lemma Quaternion.eq_of_unit_dot_ge_one {a b : Quaternion}
    (ha : a.lengthSq = 1) (hb : b.lengthSq = 1)
    (h : 1 ≤ Quaternion.dot a b) : a = b := by
  unfold Quaternion.lengthSq at ha hb
  unfold Quaternion.dot at h
  have hx2 : (a.x - b.x) ^ 2 = 0 :=
    le_antisymm
      (by nlinarith [sq_nonneg (a.y - b.y), sq_nonneg (a.z - b.z), sq_nonneg (a.w - b.w)])
      (sq_nonneg _)
  have hy2 : (a.y - b.y) ^ 2 = 0 :=
    le_antisymm
      (by nlinarith [sq_nonneg (a.x - b.x), sq_nonneg (a.z - b.z), sq_nonneg (a.w - b.w)])
      (sq_nonneg _)
  have hz2 : (a.z - b.z) ^ 2 = 0 :=
    le_antisymm
      (by nlinarith [sq_nonneg (a.x - b.x), sq_nonneg (a.y - b.y), sq_nonneg (a.w - b.w)])
      (sq_nonneg _)
  have hw2 : (a.w - b.w) ^ 2 = 0 :=
    le_antisymm
      (by nlinarith [sq_nonneg (a.x - b.x), sq_nonneg (a.y - b.y), sq_nonneg (a.z - b.z)])
      (sq_nonneg _)
  apply Quaternion.ext
  · exact sub_eq_zero.mp (sq_eq_zero_iff.mp hx2)
  · exact sub_eq_zero.mp (sq_eq_zero_iff.mp hy2)
  · exact sub_eq_zero.mp (sq_eq_zero_iff.mp hz2)
  · exact sub_eq_zero.mp (sq_eq_zero_iff.mp hw2)

/-- The `slerp` at `t = 0` returns the receiver exactly, for a unit receiver. -/
lemma Quaternion.slerp_zero (a b : Quaternion) (ha : a.lengthSq = 1) :
    Quaternion.slerp a b 0 = a := by
  simp only [Quaternion.slerp]
  by_cases hc : Quaternion.dot a b < 0
  · simp only [if_pos hc]
    by_cases h1 : -Quaternion.dot a b ≥ (1.0 : ℝ)
    · rw [if_pos h1]
    · rw [if_neg h1]
      by_cases h2 :
          |Real.sqrt ((1.0 : ℝ) - -Quaternion.dot a b * -Quaternion.dot a b)| < 0.001
      · rw [if_pos h2]
        have hlit : (⟨a.x * (1 - 0) + (b.negate).x * 0, a.y * (1 - 0) + (b.negate).y * 0,
            a.z * (1 - 0) + (b.negate).z * 0, a.w * (1 - 0) + (b.negate).w * 0⟩ :
              Quaternion) = a := by
          apply Quaternion.ext <;> ring
        rw [hlit]
        exact Quaternion.normalize_of_unit ha
      · rw [if_neg h2]
        have hne : Real.sqrt ((1.0 : ℝ) - -Quaternion.dot a b * -Quaternion.dot a b) ≠ 0 := by
          intro h0
          rw [h0] at h2
          norm_num at h2
        have hsA : Real.sin (((1 : ℝ) - 0) * Real.arccos (-Quaternion.dot a b)) =
            Real.sqrt ((1.0 : ℝ) - -Quaternion.dot a b * -Quaternion.dot a b) := by
          rw [show ((1 : ℝ) - 0) = 1 by norm_num, one_mul, Real.sin_arccos]
          congr 1
          ring
        have hsB : Real.sin ((0 : ℝ) * Real.arccos (-Quaternion.dot a b)) = 0 := by
          rw [zero_mul, Real.sin_zero]
        rw [hsA, hsB, zero_div, div_self hne]
        apply Quaternion.ext <;> ring
  · simp only [if_neg hc]
    by_cases h1 : Quaternion.dot a b ≥ (1.0 : ℝ)
    · rw [if_pos h1]
    · rw [if_neg h1]
      by_cases h2 :
          |Real.sqrt ((1.0 : ℝ) - Quaternion.dot a b * Quaternion.dot a b)| < 0.001
      · rw [if_pos h2]
        have hlit : (⟨a.x * (1 - 0) + b.x * 0, a.y * (1 - 0) + b.y * 0,
            a.z * (1 - 0) + b.z * 0, a.w * (1 - 0) + b.w * 0⟩ : Quaternion) = a := by
          apply Quaternion.ext <;> ring
        rw [hlit]
        exact Quaternion.normalize_of_unit ha
      · rw [if_neg h2]
        have hne : Real.sqrt ((1.0 : ℝ) - Quaternion.dot a b * Quaternion.dot a b) ≠ 0 := by
          intro h0
          rw [h0] at h2
          norm_num at h2
        have hsA : Real.sin (((1 : ℝ) - 0) * Real.arccos (Quaternion.dot a b)) =
            Real.sqrt ((1.0 : ℝ) - Quaternion.dot a b * Quaternion.dot a b) := by
          rw [show ((1 : ℝ) - 0) = 1 by norm_num, one_mul, Real.sin_arccos]
          congr 1
          ring
        have hsB : Real.sin ((0 : ℝ) * Real.arccos (Quaternion.dot a b)) = 0 := by
          rw [zero_mul, Real.sin_zero]
        rw [hsA, hsB, zero_div, div_self hne]
        apply Quaternion.ext <;> ring

/-- The `slerp` at `t = 1` returns the short-arc representative of the target:
the target itself when the dot product is nonnegative, its negation
otherwise. -/
lemma Quaternion.slerp_one (a b : Quaternion) (ha : a.lengthSq = 1)
    (hb : b.lengthSq = 1) :
    Quaternion.slerp a b 1 = (if Quaternion.dot a b < 0 then b.negate else b) := by
  have hbn : (b.negate).lengthSq = 1 := by rw [Quaternion.lengthSq_negate]; exact hb
  simp only [Quaternion.slerp]
  by_cases hc : Quaternion.dot a b < 0
  · simp only [if_pos hc]
    by_cases h1 : -Quaternion.dot a b ≥ (1.0 : ℝ)
    · rw [if_pos h1]
      apply Quaternion.eq_of_unit_dot_ge_one ha hbn
      rw [Quaternion.dot_negate_right]
      linarith
    · rw [if_neg h1]
      by_cases h2 :
          |Real.sqrt ((1.0 : ℝ) - -Quaternion.dot a b * -Quaternion.dot a b)| < 0.001
      · rw [if_pos h2]
        have hlit : (⟨a.x * (1 - 1) + (b.negate).x * 1, a.y * (1 - 1) + (b.negate).y * 1,
            a.z * (1 - 1) + (b.negate).z * 1, a.w * (1 - 1) + (b.negate).w * 1⟩ :
              Quaternion) = b.negate := by
          apply Quaternion.ext <;> ring
        rw [hlit]
        exact Quaternion.normalize_of_unit hbn
      · rw [if_neg h2]
        have hne : Real.sqrt ((1.0 : ℝ) - -Quaternion.dot a b * -Quaternion.dot a b) ≠ 0 := by
          intro h0
          rw [h0] at h2
          norm_num at h2
        have hsA : Real.sin (((1 : ℝ) - 1) * Real.arccos (-Quaternion.dot a b)) = 0 := by
          rw [show ((1 : ℝ) - 1) = 0 by norm_num, zero_mul, Real.sin_zero]
        have hsB : Real.sin ((1 : ℝ) * Real.arccos (-Quaternion.dot a b)) =
            Real.sqrt ((1.0 : ℝ) - -Quaternion.dot a b * -Quaternion.dot a b) := by
          rw [one_mul, Real.sin_arccos]
          congr 1
          ring
        rw [hsA, hsB, zero_div, div_self hne]
        apply Quaternion.ext <;> ring
  · simp only [if_neg hc]
    by_cases h1 : Quaternion.dot a b ≥ (1.0 : ℝ)
    · rw [if_pos h1]
      exact Quaternion.eq_of_unit_dot_ge_one ha hb (by linarith)
    · rw [if_neg h1]
      by_cases h2 :
          |Real.sqrt ((1.0 : ℝ) - Quaternion.dot a b * Quaternion.dot a b)| < 0.001
      · rw [if_pos h2]
        have hlit : (⟨a.x * (1 - 1) + b.x * 1, a.y * (1 - 1) + b.y * 1,
            a.z * (1 - 1) + b.z * 1, a.w * (1 - 1) + b.w * 1⟩ : Quaternion) = b := by
          apply Quaternion.ext <;> ring
        rw [hlit]
        exact Quaternion.normalize_of_unit hb
      · rw [if_neg h2]
        have hne : Real.sqrt ((1.0 : ℝ) - Quaternion.dot a b * Quaternion.dot a b) ≠ 0 := by
          intro h0
          rw [h0] at h2
          norm_num at h2
        have hsA : Real.sin (((1 : ℝ) - 1) * Real.arccos (Quaternion.dot a b)) = 0 := by
          rw [show ((1 : ℝ) - 1) = 0 by norm_num, zero_mul, Real.sin_zero]
        have hsB : Real.sin ((1 : ℝ) * Real.arccos (Quaternion.dot a b)) =
            Real.sqrt ((1.0 : ℝ) - Quaternion.dot a b * Quaternion.dot a b) := by
          rw [one_mul, Real.sin_arccos]
          congr 1
          ring
        rw [hsA, hsB, zero_div, div_self hne]
        apply Quaternion.ext <;> ring

/-- C8 (amended): for unit quaternions, `slerp(a, b, 0) = a` exactly, and
`slerp(a, b, 1)` equals `b` when `dot(a, b) ≥ 0` but equals `-b` (the
short-arc representative, the same rotation with opposite sign) when
`dot(a, b) < 0`. -/
theorem slerp_boundary (a b : Quaternion) (ha : Quaternion.lengthSq a = 1)
    (hb : Quaternion.lengthSq b = 1) :
    Quaternion.slerp a b 0 = a ∧
    Quaternion.slerp a b 1 = (if Quaternion.dot a b < 0 then b.negate else b) :=
  ⟨Quaternion.slerp_zero a b ha, Quaternion.slerp_one a b ha hb⟩

/-- Witness for the slerp boundary theorem at two concrete orthogonal unit
quaternions. -/
theorem slerp_boundary_witness :
    Quaternion.lengthSq ⟨0, 0, 0, 1⟩ = 1 ∧ Quaternion.lengthSq ⟨1, 0, 0, 0⟩ = 1 ∧
    (Quaternion.slerp ⟨0, 0, 0, 1⟩ ⟨1, 0, 0, 0⟩ 0 = ⟨0, 0, 0, 1⟩ ∧
      Quaternion.slerp ⟨0, 0, 0, 1⟩ ⟨1, 0, 0, 0⟩ 1 =
        (if Quaternion.dot ⟨0, 0, 0, 1⟩ ⟨1, 0, 0, 0⟩ < 0 then
          Quaternion.negate ⟨1, 0, 0, 0⟩ else ⟨1, 0, 0, 0⟩)) := by
  have h1 : Quaternion.lengthSq ⟨0, 0, 0, 1⟩ = 1 := by norm_num [Quaternion.lengthSq]
  have h2 : Quaternion.lengthSq ⟨1, 0, 0, 0⟩ = 1 := by norm_num [Quaternion.lengthSq]
  exact ⟨h1, h2, slerp_boundary _ _ h1 h2⟩

/-- C8 counterexample: for the unit quaternions a = (0,0,0,1) and
b = (0,0,0,-1) — which represent the same rotation but have negative dot
product — `slerp(a, b, 1)` returns (0,0,0,1) = -b, which is not within
1e-6 of b componentwise. -/
theorem slerp_one_not_target_counterexample :
    Quaternion.slerp ⟨0, 0, 0, 1⟩ ⟨0, 0, 0, -1⟩ 1 = ⟨0, 0, 0, 1⟩ ∧
    ¬ Quaternion.equalsEps (Quaternion.slerp ⟨0, 0, 0, 1⟩ ⟨0, 0, 0, -1⟩ 1)
      ⟨0, 0, 0, -1⟩ (1 / 1000000) := by
  have hs : Quaternion.slerp ⟨0, 0, 0, 1⟩ ⟨0, 0, 0, -1⟩ 1 = ⟨0, 0, 0, 1⟩ := by
    norm_num [Quaternion.slerp, Quaternion.dot]
  refine ⟨hs, ?_⟩
  rw [hs]
  intro h
  have hw := h.2.2.2
  norm_num [Quaternion.equalsEps] at hw

end Vecmath
